import Mathlib

/-!
Verification of the corpfinder company-matching repository.

The development shallowly embeds the two core source files:

* `src/company_matcher.py` — the normalizers (`_normalize_phone`,
  `_normalize_facebook_url`, `_extract_domain`), the dataset builder's
  list parser (`_clean_string_list`), and the scoring engine
  (`match_company`).
* `src/web_scraper.py` — the phone extractor (`extract_phones`) and the
  parallel driver (`batch_scrape`).

External collaborators are abstracted as explicit inputs: the
Elasticsearch store is modelled by passing each probe's hit list as part
of a `Responses` value; thread scheduling in `batch_scrape` is modelled
by the order of the task list (the completion order of the futures).
Machine floats are modelled by `ℚ`.
-/

set_option maxRecDepth 16000

namespace Corpfinder

/-! ## Phone normalizer (`_normalize_phone`, company_matcher.py lines 142–158)

Python:
```
if not phone: return None
normalized = re.sub(r'[^\d+]', '', phone)
if normalized.startswith('+'): normalized = normalized[1:]
if len(normalized) > 10: normalized = normalized[-10:]
return normalized
```
-/

/-- Character class kept by `re.sub(r'[^\d+]', '', phone)`: digits and `+`.
Note the regex keeps every `+`, not only a leading one. -/
def phoneKeep (c : Char) : Bool := c.isDigit || c = '+'

/-- Drop a single leading `+`, mirroring `normalized[1:]` guarded by
`normalized.startswith('+')`. -/
def dropLeadPlus : List Char → List Char
  | [] => []
  | c :: rest => if c = '+' then rest else c :: rest

/-- Embedding of `_normalize_phone`.  `none` models Python `None` (returned
for falsy input); otherwise the kept characters, minus one leading `+`,
truncated to the last 10 characters. -/
def normalize_phone (phone : String) : Option String :=
  if phone = "" then none
  else
    let stripped := phone.data.filter phoneKeep
    let noPlus := dropLeadPlus stripped
    let last10 := if 10 < noPlus.length then noPlus.drop (noPlus.length - 10) else noPlus
    some (String.mk last10)

/-- Python composition `_normalize_phone(_normalize_phone(x))`: the inner
call yields `None` or a string, and `_normalize_phone(None)` is `None`
because `not None` is true. -/
def normalize_phone_again : Option String → Option String
  | none => none
  | some s => normalize_phone s

/-! ## Facebook URL normalizer (`_normalize_facebook_url`, lines 120–140)

Python lowercases, strips `^https?://(www\.)?`, then tries three
`re.match` patterns in order; each returns `group(1).lower()`, and if none
matches the stripped lowercase URL is returned unchanged. -/

/-- Character class `[a-zA-Z0-9\.\-\_]` of the handle patterns. -/
def handleChar (c : Char) : Bool :=
  ('a' ≤ c && c ≤ 'z') || ('A' ≤ c && c ≤ 'Z') || c.isDigit || c = '.' || c = '-' || c = '_'

/-- Python `str.lower()` restricted to its ASCII action, as a map over the
characters (all strings the repository handles are ASCII). -/
def lowerChars (l : List Char) : List Char := l.map Char.toLower

/-- Embedding of `re.sub(r'^https?://(www\.)?', '', url)`: the regex is
anchored, so it removes one scheme and, when the scheme is present, one
following `www.`. -/
def stripSchemeWww (l : List Char) : List Char :=
  if "https://www.".data.isPrefixOf l then l.drop 12
  else if "http://www.".data.isPrefixOf l then l.drop 11
  else if "https://".data.isPrefixOf l then l.drop 8
  else if "http://".data.isPrefixOf l then l.drop 7
  else l

/-- Matching of `re.match(pat ++ r'([a-zA-Z0-9\.\-\_]+)/?.*', u)` for a
literal pattern `pat`: succeeds iff `u` starts with `pat` followed by at
least one handle character; the capture is the maximal (greedy) handle-char
run, after which `/?.*` always matches. -/
def capAfter (pat : List Char) (u : List Char) : Option (List Char) :=
  if pat.isPrefixOf u then
    let run := (u.drop pat.length).takeWhile handleChar
    if run = [] then none else some run
  else none

/-- Matching of the third pattern
`re.match(r'facebook\.com/profile\.php\?id=([0-9]+)/?.*', u)`: the capture
is the maximal digit run after the literal prefix. -/
def profileIdCapture (u : List Char) : Option (List Char) :=
  if "facebook.com/profile.php?id=".data.isPrefixOf u then
    let run := (u.drop 28).takeWhile (fun c => c.isDigit)
    if run = [] then none else some run
  else none

/-- Embedding of `_normalize_facebook_url`.  The three patterns are tried
in source order; `group(1).lower()` and the fallback `url.lower()` act on
an already lowercased string, so the extra `lowerChars` is kept but inert. -/
def normalize_facebook_url (url : String) : Option String :=
  if url = "" then none
  else
    let u := stripSchemeWww (lowerChars url.data)
    match capAfter "facebook.com/".data u with
    | some h => some (String.mk (lowerChars h))
    | none =>
      match capAfter "fb.com/".data u with
      | some h => some (String.mk (lowerChars h))
      | none =>
        match profileIdCapture u with
        | some h => some (String.mk (lowerChars h))
        | none => some (String.mk (lowerChars u))

/-! ## Domain extraction (`_extract_domain`, lines 99–118)

The source prepends a scheme when missing and calls `tldextract.extract`,
falling back to `urlparse(url).netloc.lower()`.  `tldextract` consults the
external public-suffix list, which is not part of the repository; the spec
(§4.A) specifies the behavior without that list as "use the raw host", so
the embedding extracts the raw lowercased host (the `urlparse` fallback
branch).  The claims below depend only on the `None`-on-empty guard and on
the truthiness of the result, not on the host value itself. -/

/-- Embedding of `_extract_domain` with the eTLD library abstracted to raw
host extraction. -/
def extract_domain (url : String) : Option String :=
  if url = "" then none
  else
    let l := url.data
    let u := if "http://".data.isPrefixOf l || "https://".data.isPrefixOf l then l
             else "http://".data ++ l
    let rest := if "http://".data.isPrefixOf u then u.drop 7 else u.drop 8
    some (String.mk (lowerChars (rest.takeWhile (fun c => c ≠ '/' && c ≠ '?' && c ≠ '#'))))

/-! ## Dataset builder's list parser (`_clean_string_list`, lines 87–97)

Python:
```
if pd.isna(value) or value == '[]': return []
try: return ast.literal_eval(value)
except (ValueError, SyntaxError): return [value]
```
A CSV cell is either a missing value (`NaN`, for which `pd.isna` is true)
or a string (`pd.isna` is false on every string, including `""`). -/

/-- A pandas CSV cell as seen by `_clean_string_list`. -/
inductive Cell where
  | nan : Cell
  | str (s : String) : Cell
deriving DecidableEq

/-- Fuel-based scanner for `ast.literal_eval` restricted to the shapes the
builder feeds it: a `[...]` literal of quoted string items.  `none` models
the `ValueError`/`SyntaxError` path (including the empty string, on which
`literal_eval` raises `SyntaxError`). -/
def parseItems (q : Char) : Nat → List Char → List Char → Option (List String × List Char)
  | 0, _, _ => none
  | _ + 1, _, [] => none
  | fuel + 1, acc, c :: rest =>
    if c = q then
      let afterItem := rest.dropWhile (fun x => x = ' ')
      match afterItem with
      | ']' :: tail => some ([String.mk acc.reverse], tail)
      | ',' :: tail =>
        let tail := tail.dropWhile (fun x => x = ' ')
        match tail with
        | q2 :: tail2 =>
          if q2 = '\x27' || q2 = '"' then
            match parseItems q2 fuel [] tail2 with
            | some (items, rem) => some (String.mk acc.reverse :: items, rem)
            | none => none
          else none
        | [] => none
      | _ => none
    else parseItems q fuel (c :: acc) rest

/-- Model of `ast.literal_eval` on the builder's domain: a Python list
literal of single- or double-quoted strings (no escape sequences), with
optional spaces around items.  Anything else is a parse failure. -/
def literalEvalList (s : String) : Option (List String) :=
  match s.data with
  | '[' :: rest =>
    let body := rest.dropWhile (fun x => x = ' ')
    match body with
    | [']'] => some []
    | q :: tail =>
      if q = '\x27' || q = '"' then
        match parseItems q s.length [] tail with
        | some (items, rem) => if rem = [] then some items else none
        | none => none
      else none
    | [] => none
  | _ => none

/-- Embedding of `_clean_string_list`. -/
def clean_string_list (v : Cell) : List String :=
  match v with
  | .nan => []
  | .str s =>
    if s = "[]" then []
    else
      match literalEvalList s with
      | some xs => xs
      | none => [s]

/-! ## Phone extractor (`extract_phones`, web_scraper.py lines 411–424)

Python:
```
if not text: return []
phones = re.compile(r'(\+?[\d\s\-\(\)]{8,20})', re.MULTILINE).findall(text)
cleaned_phones = []
for phone in phones:
    cleaned = re.sub(r'[^\d+]', '', phone)
    if len(cleaned) >= 8: cleaned_phones.append(cleaned)
return list(set(cleaned_phones))
```
`findall` scans left to right producing non-overlapping matches; at each
position the optional `+` is consumed if present, then the greedy
`{8,20}` repetition takes the maximal run of class characters capped at
20 and succeeds iff at least 8 are available (nothing follows the
repetition, so no backtracking changes the outcome).  Python's
`list(set(...))` returns the distinct elements in unspecified order; the
embedding keeps the first occurrence of each, and set-level statements
are phrased via membership. -/

/-- Character class `[\d\s\-\(\)]` with `\s` the ASCII whitespace class. -/
def isPhoneChar (c : Char) : Bool :=
  c.isDigit || c = ' ' || c = '\t' || c = '\n' || c = '\r' || c = '\x0b' || c = '\x0c'
    || c = '-' || c = '(' || c = ')'

/-- Maximal run of characters satisfying `p`, capped at `cap` characters
(the greedy bounded repetition `{8,20}` with `cap = 20`). -/
def takeWhileCap (p : Char → Bool) : Nat → List Char → List Char
  | 0, _ => []
  | _, [] => []
  | cap + 1, c :: rest => if p c then c :: takeWhileCap p cap rest else []

/-- Attempt of the phone regex at the current position: optional `+`, then
8–20 class characters.  Returns the matched text and the remaining input. -/
def tryPhoneMatch : List Char → Option (List Char × List Char)
  | [] => none
  | c :: rest =>
    if c = '+' then
      let run := takeWhileCap isPhoneChar 20 rest
      if 8 ≤ run.length then some ('+' :: run, rest.drop run.length) else none
    else
      let run := takeWhileCap isPhoneChar 20 (c :: rest)
      if 8 ≤ run.length then some (run, (c :: rest).drop run.length) else none

/-- Left-to-right non-overlapping scan of `findall`, with fuel bounded by
the input length (each step consumes at least one character). -/
def phoneFindAllAux : Nat → List Char → List (List Char)
  | 0, _ => []
  | _ + 1, [] => []
  | fuel + 1, c :: rest =>
    match tryPhoneMatch (c :: rest) with
    | some (m, r) => m :: phoneFindAllAux fuel r
    | none => phoneFindAllAux fuel rest

/-- All matches of the phone pattern in the text. -/
def phoneFindAll (l : List Char) : List (List Char) := phoneFindAllAux l.length l

/-- Embedding of `extract_phones`. -/
def extract_phones (text : String) : List String :=
  if text = "" then []
  else
    let found := phoneFindAll text.data
    let cleaned := (found.map (fun m => String.mk (m.filter phoneKeep))).filter
      (fun s => 8 ≤ s.length)
    cleaned.eraseDups

/-! ## Levenshtein distance (the `Levenshtein.distance` library call used by
the name probe of `match_company`). -/

/-- Levenshtein edit distance on character lists. -/
def levenshtein : List Char → List Char → Nat
  | [], ys => ys.length
  | x :: xs, [] => (x :: xs).length
  | x :: xs, y :: ys =>
    if x = y then levenshtein xs ys
    else 1 + min (levenshtein xs ys) (min (levenshtein (x :: xs) ys) (levenshtein xs (y :: ys)))
termination_by xs ys => xs.length + ys.length

/-! ## Matcher (`match_company`, company_matcher.py lines 420–573)

The Elasticsearch store is external; each `es.search` call is modelled by
an input hit list in `Responses` (domain term query top 5, phone match
top 5, facebook match top 5, fuzzy name bool-should top 10, fallback
multi-match top 10).  A hit carries its `_source` record and its `_score`
(used only by the fallback, as `hit['_score'] / 10`).  The `match_scores`
Python dict is an insertion-ordered association list: updating an
existing key keeps its position, a new key is appended — exactly `bump`
below.  `max(match_scores.items(), key=lambda x: x[1])[0]` keeps the
first maximal entry in insertion order. -/

/-- The fields of an indexed `_source` record that `match_company` reads:
`company_id` and the two name fields consulted by the Levenshtein loop. -/
structure Record where
  company_id : String
  commercial : Option String := none
  legal : Option String := none
deriving DecidableEq

/-- One Elasticsearch hit: `_source` and `_score`. -/
structure Hit where
  source : Record
  score : ℚ := 0
deriving DecidableEq

/-- The responses the store gives to the five possible probe queries. -/
structure Responses where
  domainHits : List Hit := []
  phoneHits : List Hit := []
  fbHits : List Hit := []
  nameHits : List Hit := []
  fallbackHits : List Hit := []
deriving DecidableEq

/-- A query: any subset of name, website, phone, facebook.  `none` models
Python `None`; `some ""` is falsy exactly like `None` in every `if` of
the source. -/
structure Query where
  name : Option String := none
  website : Option String := none
  phone : Option String := none
  facebook : Option String := none
deriving DecidableEq

/-- Python truthiness of an optional string. -/
def optTruthy : Option String → Bool
  | none => false
  | some s => s ≠ ""

/-- The score update `match_scores[id] = match_scores.get(id, 0) + v` on
an insertion-ordered dict. -/
def bump : List (String × ℚ) → String → ℚ → List (String × ℚ)
  | [], id, v => [(id, v)]
  | (k, w) :: rest, id, v =>
    if k = id then (k, w + v) :: rest else (k, w) :: bump rest id v

/-- The matcher's running state: the `match_scores` dict and the `results`
list of appended `_source` records. -/
structure MatchState where
  scores : List (String × ℚ)
  results : List Record
deriving DecidableEq

/-- Processing of one probe's hit loop: for each hit, add `f hit` to its
candidate's score and append the source to `results`. -/
def runProbe (f : Hit → ℚ) (hits : List Hit) (st : MatchState) : MatchState :=
  hits.foldl
    (fun s h =>
      { scores := bump s.scores h.source.company_id (f h),
        results := s.results ++ [h.source] }) st

/-- A probe guarded by its field test. -/
def probeIf (c : Bool) (f : Hit → ℚ) (hits : List Hit) (st : MatchState) : MatchState :=
  if c then runProbe f hits st else st

/-- Guard of the domain probe: `if website:` then `if domain:` with
`domain = _extract_domain(website)`. -/
def domainGuard (q : Query) : Bool :=
  match q.website with
  | none => false
  | some w => if w = "" then false else optTruthy (extract_domain w)

/-- Guard of the phone probe: `if phone:` then `if normalized_phone:`. -/
def phoneGuard (q : Query) : Bool :=
  match q.phone with
  | none => false
  | some p => if p = "" then false else optTruthy (normalize_phone p)

/-- Guard of the facebook probe: `if facebook:` then `if normalized_fb:`. -/
def fbGuard (q : Query) : Bool :=
  match q.facebook with
  | none => false
  | some f => if f = "" then false else optTruthy (normalize_facebook_url f)

/-- Guard of the name probe: `if name:`. -/
def nameGuard (q : Query) : Bool := optTruthy q.name

/-- Per-hit local similarity of the name probe:
`1 - lev(name.lower(), field.lower()) / max(len(name), len(field))`. -/
def nameSimilarity (qname field : String) : ℚ :=
  1 - (levenshtein (lowerChars qname.data) (lowerChars field.data) : ℚ)
      / (max qname.length field.length : ℚ)

/-- One iteration of the `best_name_match` loop: update the running best
with the field's similarity when the field is present and truthy
(`if field in source and source[field]`). -/
def bestStep (qname : String) (b : ℚ) (fOpt : Option String) : ℚ :=
  match fOpt with
  | some f => if f = "" then b else max b (nameSimilarity qname f)
  | none => b

/-- The `best_name_match` loop over `company_commercial_name` and
`company_legal_name`, starting from 0. -/
def bestNameMatch (qname : String) (r : Record) : ℚ :=
  bestStep qname (bestStep qname 0 r.commercial) r.legal

/-- The name probe's contribution `best_name_match * 5`. -/
def nameScore (qname : String) (r : Record) : ℚ := bestNameMatch qname r * 5

/-- The name probe, carrying the query string into the per-hit score. -/
def nameProbe (nameOpt : Option String) (hits : List Hit) (st : MatchState) : MatchState :=
  match nameOpt with
  | none => st
  | some n => if n = "" then st else runProbe (fun h => nameScore n h.source) hits st

/-- State after the four primary probes, run in source order
(domain, phone, facebook, name) from the empty dict and list. -/
def primaryState (q : Query) (resp : Responses) : MatchState :=
  let st0 : MatchState := ⟨[], []⟩
  let st1 := probeIf (domainGuard q) (fun _ => 10) resp.domainHits st0
  let st2 := probeIf (phoneGuard q) (fun _ => 8) resp.phoneHits st1
  let st3 := probeIf (fbGuard q) (fun _ => 6) resp.fbHits st2
  nameProbe q.name resp.nameHits st3

/-- The condition `if fields and query_parts:` of the fallback block:
nonempty iff at least one of the four fields is truthy. -/
def anyFieldPresent (q : Query) : Bool :=
  optTruthy q.name || optTruthy q.website || optTruthy q.phone || optTruthy q.facebook

/-- The fallback multi-match search is issued iff `if not match_scores:`
holds after the four probes and the field list is nonempty. -/
def fallbackIssued (q : Query) (resp : Responses) : Bool :=
  decide ((primaryState q resp).scores = []) && anyFieldPresent q

/-- State after the fallback block: each fallback hit contributes
`hit['_score'] / 10`. -/
def matchState (q : Query) (resp : Responses) : MatchState :=
  let st := primaryState q resp
  if fallbackIssued q resp then runProbe (fun h => h.score / 10) resp.fallbackHits st
  else st

/-- Python `max` over the remaining items, seeded with the first: a later
item replaces the current best only when strictly greater, so the first
maximal item in iteration order wins. -/
def bestFold (e : String × ℚ) (rest : List (String × ℚ)) : String × ℚ :=
  rest.foldl (fun b x => if b.2 < x.2 then x else b) e

/-- `max(match_scores.items(), key=lambda x: x[1])`: the first entry (in
insertion order) attaining the maximal score; `none` on an empty dict. -/
def bestEntry (l : List (String × ℚ)) : Option (String × ℚ) :=
  match l with
  | [] => none
  | e :: rest => some (bestFold e rest)

/-- Embedding of `match_company`: select the best-scored candidate id,
find the first appended result with that id, and return it paired with
its total score (the `match_score` the source attaches to the dict). -/
def match_company (q : Query) (resp : Responses) : Option (Record × ℚ) :=
  let st := matchState q resp
  match bestEntry st.scores with
  | none => none
  | some (id, v) =>
    match st.results.find? (fun r => r.company_id == id) with
    | none => none
    | some r => some (r, v)

/-! ## Batch scraping driver (`batch_scrape`, web_scraper.py lines 519–541)

One future is submitted per input URL; `as_completed` yields them in
completion order, modelled by the order of the task list.  Each task
either returns a row (`future.result()`) or raises, in which case the
driver appends a failed row with the exception text and `retries = -1`. -/

/-- The fields of a scrape result row that `batch_scrape` itself writes or
that the claims consult. -/
structure ScrapeRow where
  website : String
  status : String
  error : Option String := none
  retries : Int
deriving DecidableEq

/-- Outcome of one `scrape_website` future: a returned row or a raised
exception with its message. -/
inductive TaskOutcome where
  | ok (row : ScrapeRow)
  | raised (msg : String)
deriving DecidableEq

/-- The row the `except` branch of `batch_scrape` appends. -/
def failedRow (url msg : String) : ScrapeRow :=
  { website := url, status := "failed", error := some msg, retries := -1 }

/-- Conversion of one completed future into the row `batch_scrape`
appends. -/
def rowOf : String × TaskOutcome → ScrapeRow
  | (_, .ok r) => r
  | (url, .raised msg) => failedRow url msg

/-- Embedding of `batch_scrape`: the loop over `as_completed`, appending
one row per future to `results`. -/
def batch_scrape (tasks : List (String × TaskOutcome)) : List ScrapeRow :=
  tasks.foldl
    (fun results t =>
      match t.2 with
      | .ok r => results ++ [r]
      | .raised msg => results ++ [failedRow t.1 msg]) []

/-! ## Helper lemmas -/

/-- Dropping a leading plus yields a suffix of the input. -/
theorem dropLeadPlus_suffix (l : List Char) : dropLeadPlus l <:+ l := by
  cases l with
  | nil => exact List.suffix_refl _
  | cons c rest =>
    simp only [dropLeadPlus]
    split
    · exact List.suffix_cons c rest
    · exact List.suffix_refl _

/-- The score dict never becomes empty by an update. -/
theorem bump_ne_nil (l : List (String × ℚ)) (id : String) (v : ℚ) :
    bump l id v ≠ [] := by
  cases l with
  | nil => simp [bump]
  | cons e rest =>
    obtain ⟨k, w⟩ := e
    simp only [bump]
    split <;> simp

/-- An update with a non-negative contribution keeps every total
non-negative. -/
theorem bump_nonneg (l : List (String × ℚ)) (id : String) (v : ℚ)
    (hl : ∀ e ∈ l, 0 ≤ e.2) (hv : 0 ≤ v) : ∀ e ∈ bump l id v, 0 ≤ e.2 := by
  induction l with
  | nil =>
    intro e he
    simp [bump] at he
    simp [he, hv]
  | cons hd rest ih =>
    obtain ⟨k, w⟩ := hd
    intro e he
    simp only [bump] at he
    split at he
    · rcases List.mem_cons.mp he with h1 | h2
      · subst h1
        exact add_nonneg (hl (k, w) (List.mem_cons_self _ _)) hv
      · exact hl e (List.mem_cons_of_mem _ h2)
    · rcases List.mem_cons.mp he with h1 | h2
      · subst h1
        exact hl (k, w) (List.mem_cons_self _ _)
      · exact ih (fun x hx => hl x (List.mem_cons_of_mem _ hx)) e h2

/-- Every key present after an update is the updated key or a key that
was already present. -/
theorem bump_key (l : List (String × ℚ)) (id : String) (v : ℚ) :
    ∀ e ∈ bump l id v, e.1 = id ∨ ∃ w, (e.1, w) ∈ l := by
  induction l with
  | nil =>
    intro e he
    simp [bump] at he
    simp [he]
  | cons hd rest ih =>
    obtain ⟨k, w⟩ := hd
    intro e he
    simp only [bump] at he
    split at he
    · rcases List.mem_cons.mp he with h1 | h2
      · subst h1
        right
        exact ⟨w, List.mem_cons_self _ _⟩
      · right
        exact ⟨e.2, by simp [List.mem_cons_of_mem, h2]⟩
    · rcases List.mem_cons.mp he with h1 | h2
      · subst h1
        right
        exact ⟨w, List.mem_cons_self _ _⟩
      · rcases ih e h2 with h3 | ⟨w2, h4⟩
        · exact Or.inl h3
        · exact Or.inr ⟨w2, List.mem_cons_of_mem _ h4⟩

/-- The results list after a probe is the previous list with the probe's
hit sources appended in order. -/
theorem runProbe_results (f : Hit → ℚ) (hits : List Hit) (st : MatchState) :
    (runProbe f hits st).results = st.results ++ hits.map (fun h => h.source) := by
  induction hits generalizing st with
  | nil => simp [runProbe]
  | cons h t ih =>
    show (runProbe f t
      ⟨bump st.scores h.source.company_id (f h), st.results ++ [h.source]⟩).results = _
    rw [ih]
    simp

/-- A probe leaves the score dict empty exactly when it was empty and the
probe had no hits. -/
theorem runProbe_scores_nil_iff (f : Hit → ℚ) (hits : List Hit) (st : MatchState) :
    (runProbe f hits st).scores = [] ↔ st.scores = [] ∧ hits = [] := by
  induction hits generalizing st with
  | nil => simp [runProbe]
  | cons h t ih =>
    show (runProbe f t
      ⟨bump st.scores h.source.company_id (f h), st.results ++ [h.source]⟩).scores = [] ↔ _
    rw [ih]
    simp [bump_ne_nil]

/-- A probe whose per-hit contributions are non-negative keeps every
total non-negative. -/
theorem runProbe_nonneg (f : Hit → ℚ) (hits : List Hit) (st : MatchState)
    (hst : ∀ e ∈ st.scores, 0 ≤ e.2) (hf : ∀ h ∈ hits, 0 ≤ f h) :
    ∀ e ∈ (runProbe f hits st).scores, 0 ≤ e.2 := by
  induction hits generalizing st with
  | nil => exact hst
  | cons h t ih =>
    show ∀ e ∈ (runProbe f t
      ⟨bump st.scores h.source.company_id (f h), st.results ++ [h.source]⟩).scores, 0 ≤ e.2
    exact ih _ (bump_nonneg _ _ _ hst (hf h (List.mem_cons_self _ _)))
      (fun x hx => hf x (List.mem_cons_of_mem _ hx))

/-- Every scored candidate has a record in the results list with its id:
the invariant that makes the final lookup of `match_company` succeed. -/
def KeyInv (st : MatchState) : Prop :=
  ∀ e ∈ st.scores, ∃ r ∈ st.results, r.company_id = e.1

/-- Probes preserve the key invariant: each score update is accompanied by
appending the hit's source. -/
theorem runProbe_keyInv (f : Hit → ℚ) (hits : List Hit) (st : MatchState)
    (h : KeyInv st) : KeyInv (runProbe f hits st) := by
  induction hits generalizing st with
  | nil => exact h
  | cons hh t ih =>
    show KeyInv (runProbe f t
      ⟨bump st.scores hh.source.company_id (f hh), st.results ++ [hh.source]⟩)
    apply ih
    intro e he
    rcases bump_key st.scores hh.source.company_id (f hh) e he with h1 | ⟨w, hw⟩
    · exact ⟨hh.source, by simp, h1.symm⟩
    · obtain ⟨r, hr, hrid⟩ := h (e.1, w) hw
      exact ⟨r, List.mem_append_left _ hr, hrid⟩

/-- The key invariant is preserved by a guarded probe. -/
theorem probeIf_keyInv (c : Bool) (f : Hit → ℚ) (hits : List Hit) (st : MatchState)
    (h : KeyInv st) : KeyInv (probeIf c f hits st) := by
  cases c
  · exact h
  · exact runProbe_keyInv f hits st h

/-- The key invariant is preserved by the name probe. -/
theorem nameProbe_keyInv (nameOpt : Option String) (hits : List Hit) (st : MatchState)
    (h : KeyInv st) : KeyInv (nameProbe nameOpt hits st) := by
  cases nameOpt with
  | none => exact h
  | some n =>
    simp only [nameProbe]
    split
    · exact h
    · exact runProbe_keyInv _ hits st h

/-- The state after the four primary probes satisfies the key invariant. -/
theorem primaryState_keyInv (q : Query) (resp : Responses) :
    KeyInv (primaryState q resp) := by
  unfold primaryState
  apply nameProbe_keyInv
  apply probeIf_keyInv
  apply probeIf_keyInv
  apply probeIf_keyInv
  intro e he
  simp at he

/-- The state after the fallback block satisfies the key invariant. -/
theorem matchState_keyInv (q : Query) (resp : Responses) :
    KeyInv (matchState q resp) := by
  unfold matchState
  split
  · exact runProbe_keyInv _ _ _ (primaryState_keyInv q resp)
  · exact primaryState_keyInv q resp

/-- A probe keeps the score dict and the results list empty or nonempty
together. -/
theorem runProbe_emptyIff (f : Hit → ℚ) (hits : List Hit) (st : MatchState)
    (h : st.scores = [] ↔ st.results = []) :
    (runProbe f hits st).scores = [] ↔ (runProbe f hits st).results = [] := by
  rw [runProbe_scores_nil_iff, runProbe_results]
  constructor
  · rintro ⟨h1, h2⟩
    subst h2
    simp [h.mp h1]
  · intro h2
    rw [List.append_eq_nil] at h2
    obtain ⟨h3, h4⟩ := h2
    rw [List.map_eq_nil_iff] at h4
    exact ⟨h.mpr h3, h4⟩

/-- A guarded probe keeps the score dict and the results list empty or
nonempty together. -/
theorem probeIf_emptyIff (c : Bool) (f : Hit → ℚ) (hits : List Hit) (st : MatchState)
    (h : st.scores = [] ↔ st.results = []) :
    (probeIf c f hits st).scores = [] ↔ (probeIf c f hits st).results = [] := by
  cases c
  · exact h
  · exact runProbe_emptyIff f hits st h

/-- The name probe keeps the score dict and the results list empty or
nonempty together. -/
theorem nameProbe_emptyIff (nameOpt : Option String) (hits : List Hit) (st : MatchState)
    (h : st.scores = [] ↔ st.results = []) :
    (nameProbe nameOpt hits st).scores = [] ↔ (nameProbe nameOpt hits st).results = [] := by
  cases nameOpt with
  | none => exact h
  | some n =>
    simp only [nameProbe]
    split
    · exact h
    · exact runProbe_emptyIff _ hits st h

/-- The primary probes produce an empty score dict exactly when they
produced no candidate at all (a hit contributing a zero score still
occupies the dict). -/
theorem primaryState_emptyIff (q : Query) (resp : Responses) :
    (primaryState q resp).scores = [] ↔ (primaryState q resp).results = [] :=
  nameProbe_emptyIff _ _ _ (probeIf_emptyIff _ _ _ _ (probeIf_emptyIff _ _ _ _
    (probeIf_emptyIff _ _ _ _ (by simp))))

/-- Specification of the seeded fold of Python's `max`: the result bounds
the seed and every item, is the seed or an item, and is the first element
of seed-then-items whose value reaches the maximum. -/
theorem bestFold_spec (rest : List (String × ℚ)) : ∀ e : String × ℚ,
    e.2 ≤ (bestFold e rest).2 ∧
    (∀ x ∈ rest, x.2 ≤ (bestFold e rest).2) ∧
    (bestFold e rest = e ∨ bestFold e rest ∈ rest) ∧
    (e :: rest).find? (fun y => decide ((bestFold e rest).2 ≤ y.2)) = some (bestFold e rest) := by
  induction rest with
  | nil =>
    intro e
    refine ⟨le_refl _, by simp, Or.inl rfl, ?_⟩
    simp [bestFold, List.find?]
  | cons x t ih =>
    intro e
    by_cases hx : e.2 < x.2
    · have hstep : bestFold e (x :: t) = bestFold x t := by
        simp [bestFold, List.foldl_cons, hx]
      obtain ⟨ha, hb, hc, hd⟩ := ih x
      rw [hstep]
      refine ⟨le_of_lt (lt_of_lt_of_le hx ha), ?_, ?_, ?_⟩
      · intro y hy
        rcases List.mem_cons.mp hy with h1 | h2
        · subst h1; exact ha
        · exact hb y h2
      · rcases hc with h1 | h2
        · refine Or.inr ?_
          rw [h1]
          exact List.mem_cons_self _ _
        · exact Or.inr (List.mem_cons_of_mem _ h2)
      · have hpe : ¬ ((bestFold x t).2 ≤ e.2) := not_le.mpr (lt_of_lt_of_le hx ha)
        rw [List.find?_cons_of_neg _ (by simpa using hpe)]
        exact hd
    · have hstep : bestFold e (x :: t) = bestFold e t := by
        simp [bestFold, List.foldl_cons, hx]
      obtain ⟨ha, hb, hc, hd⟩ := ih e
      rw [hstep]
      have hxe : x.2 ≤ e.2 := not_lt.mp hx
      refine ⟨ha, ?_, ?_, ?_⟩
      · intro y hy
        rcases List.mem_cons.mp hy with h1 | h2
        · subst h1; exact le_trans hxe ha
        · exact hb y h2
      · rcases hc with h1 | h2
        · exact Or.inl h1
        · exact Or.inr (List.mem_cons_of_mem _ h2)
      · by_cases hpe : (bestFold e t).2 ≤ e.2
        · have he : bestFold e t = e := by
            have := hd
            rw [List.find?_cons_of_pos _ (by simpa using hpe)] at this
            exact (Option.some.inj this).symm
          rw [List.find?_cons_of_pos _ (by simpa using hpe), he]
        · have hd2 : t.find? (fun y => decide ((bestFold e t).2 ≤ y.2)) = some (bestFold e t) := by
            have := hd
            rwa [List.find?_cons_of_neg _ (by simpa using hpe)] at this
          have hpx : ¬ ((bestFold e t).2 ≤ x.2) :=
            fun hle => hpe (le_trans hle hxe)
          rw [List.find?_cons_of_neg _ (by simpa using hpe),
            List.find?_cons_of_neg _ (by simpa using hpx)]
          exact hd2

/-- The best entry of a nonempty dict is one of its entries. -/
theorem bestEntry_mem (l : List (String × ℚ)) (b : String × ℚ)
    (h : bestEntry l = some b) : b ∈ l := by
  cases l with
  | nil => simp [bestEntry] at h
  | cons e rest =>
    simp only [bestEntry] at h
    obtain rfl : bestFold e rest = b := Option.some.inj h
    rcases (bestFold_spec rest e).2.2.1 with h1 | h2
    · rw [h1]
      exact List.mem_cons_self _ _
    · exact List.mem_cons_of_mem _ h2

/-! ## C4: phone normalizer null behavior -/

/-- C4 counterexample: `_normalize_phone` applies no minimum-digit
threshold; a three-digit input is returned as is, not as null, although
three is below the reported minimum of 8. -/
theorem normalize_phone_no_threshold :
    normalize_phone "123" = some "123" ∧ normalize_phone "123" ≠ none := by
  constructor
  · rfl
  · intro h
    simp [normalize_phone] at h

/-- C4 (amended): `_normalize_phone` returns null exactly on the empty
input; on any other input it returns the last `min k 10` characters of
the plus-stripped filtering of the input (where `k` is that filtering's
length), with no minimum-digit threshold. -/
theorem normalize_phone_characterization (s : String) :
    (normalize_phone s = none ↔ s = "") ∧
    (s ≠ "" → ∃ r, normalize_phone s = some r ∧
      r.data <:+ dropLeadPlus (s.data.filter phoneKeep) ∧
      r.data.length = min (dropLeadPlus (s.data.filter phoneKeep)).length 10) := by
  constructor
  · constructor
    · intro h
      by_contra hs
      simp [normalize_phone, hs] at h
    · intro h
      simp [normalize_phone, h]
  · intro h
    simp only [normalize_phone, if_neg h]
    by_cases h10 : 10 < (dropLeadPlus (s.data.filter phoneKeep)).length
    · refine ⟨String.mk ((dropLeadPlus (s.data.filter phoneKeep)).drop
        ((dropLeadPlus (s.data.filter phoneKeep)).length - 10)), ?_, ?_, ?_⟩
      · rw [if_pos h10]
      · exact List.drop_suffix _ _
      · simp only [String.mk]
        rw [List.length_drop]
        omega
    · refine ⟨String.mk (dropLeadPlus (s.data.filter phoneKeep)), ?_, ?_, ?_⟩
      · rw [if_neg h10]
      · exact List.suffix_refl _
      · simp only [String.mk]
        omega

/-- C4 witness: the amended characterization at a concrete phone. -/
theorem normalize_phone_characterization_witness :
    ("+1 (415) 555-0123" : String) ≠ "" ∧
    (∃ r, normalize_phone "+1 (415) 555-0123" = some r ∧
      r.data <:+ dropLeadPlus (("+1 (415) 555-0123" : String).data.filter phoneKeep) ∧
      r.data.length =
        min (dropLeadPlus (("+1 (415) 555-0123" : String).data.filter phoneKeep)).length 10) :=
  ⟨by decide, (normalize_phone_characterization "+1 (415) 555-0123").2 (by decide)⟩

/-! ## C5: idempotence of phone normalization -/

/-- C5 counterexample: normalization is not idempotent; a letters-only
phone normalizes to the empty string, and normalizing the empty string
yields null instead. -/
theorem normalize_phone_not_idempotent :
    normalize_phone_again (normalize_phone "abc") ≠ normalize_phone "abc" := by
  decide

/-- C5 (amended): normalization is idempotent on every input whose
normalized form is nonempty and is unchanged by dropping a leading plus
(it fails only when the normalized form is empty — renormalizing gives
null — or retains a leading plus). -/
theorem normalize_phone_idempotent_on (x r : String)
    (h : normalize_phone x = some r) (hne : r ≠ "")
    (hplus : dropLeadPlus r.data = r.data) :
    normalize_phone_again (normalize_phone x) = normalize_phone x := by
  by_cases hx : x = ""
  · subst hx
    simp [normalize_phone] at h
  · rw [h]
    simp only [normalize_phone_again]
    simp only [normalize_phone, if_neg hx] at h
    have hdata : r.data =
        (if 10 < (dropLeadPlus (x.data.filter phoneKeep)).length then
          (dropLeadPlus (x.data.filter phoneKeep)).drop
            ((dropLeadPlus (x.data.filter phoneKeep)).length - 10)
        else dropLeadPlus (x.data.filter phoneKeep)) := by
      have := Option.some.inj h
      rw [← this]
    have hsuffix : r.data <:+ x.data.filter phoneKeep := by
      rw [hdata]
      split
      · exact (List.drop_suffix _ _).trans (dropLeadPlus_suffix _)
      · exact dropLeadPlus_suffix _
    have hkeep : ∀ c ∈ r.data, phoneKeep c := by
      intro c hc
      exact List.of_mem_filter (hsuffix.subset hc)
    have hlen : r.data.length ≤ 10 := by
      rw [hdata]
      split
      · rw [List.length_drop]
        omega
      · omega
    simp only [normalize_phone, if_neg hne]
    rw [List.filter_eq_self.mpr hkeep, hplus, if_neg (by omega)]

/-- C5 witness: the amended idempotence at a concrete phone whose
normalized form is `4155550123`. -/
theorem normalize_phone_idempotent_on_witness :
    normalize_phone_again (normalize_phone "+1 (415) 555-0123") =
      normalize_phone "+1 (415) 555-0123" :=
  normalize_phone_idempotent_on "+1 (415) 555-0123" "4155550123"
    (by decide) (by decide) (by decide)

/-! ## C6: facebook URL normalizer -/

/-- C6: the generic `facebook.com/<handle>` pattern is tried before the
`profile.php?id=` pattern and its character class includes `.`, so a
profile URL captures `profile.php` instead of the numeric id, while plain
handles and the no-match fallback behave as described. -/
theorem normalize_facebook_url_profile_php :
    normalize_facebook_url "https://www.facebook.com/profile.php?id=12345" =
      some "profile.php" ∧
    normalize_facebook_url "https://facebook.com/Acme" = some "acme" ∧
    normalize_facebook_url "https://www.example.com/contact" = some "example.com/contact" := by
  refine ⟨?_, ?_, ?_⟩ <;> decide

/-! ## C7: dataset builder's list parser -/

/-- C7 counterexample: the empty string is not missing for `pd.isna` and
fails `ast.literal_eval`, so it is wrapped as a singleton rather than
producing the empty list. -/
theorem clean_string_list_empty_string :
    clean_string_list (Cell.str "") = [""] ∧ clean_string_list (Cell.str "") ≠ [] := by
  decide

/-- C7 (amended): the parser returns the empty list on a missing (NaN)
cell and on the string `"[]"`; on any other string it returns the parsed
list when the string is a valid list literal and otherwise — including
the empty string — the singleton wrapping of the raw string. -/
theorem clean_string_list_characterization (s : String) :
    clean_string_list Cell.nan = [] ∧
    clean_string_list (Cell.str s) =
      (match literalEvalList s with
       | some xs => xs
       | none => [s]) := by
  refine ⟨rfl, ?_⟩
  by_cases hs : s = "[]"
  · subst hs
    have hp : literalEvalList "[]" = some [] := by decide
    rw [hp]
    rfl
  · simp only [clean_string_list, if_neg hs]

/-! ## C8: phone extraction from the sample text -/

/-- The text of the extraction scenario. -/
def callText : String := "Call +1 415-555-0123 or (628) 555-9999"

/-- C8 counterexample: the cleaning regex `[^\d+]` preserves the leading
plus, so the first extracted phone is `+14155550123`, and the claimed
digit-only `14155550123` is not produced. -/
theorem extract_phones_keeps_plus :
    ("14155550123" ∉ extract_phones callText) ∧
      "+14155550123" ∈ extract_phones callText := by
  decide

/-- C8 (amended): extraction from the sample text yields exactly the
phones `+14155550123` and `6285559999` (as a set; the leading plus is
preserved, and the digit-only form arises only after `_normalize_phone`). -/
theorem extract_phones_call_text :
    extract_phones callText = ["+14155550123", "6285559999"] := by
  decide

/-! ## C1: selection of the maximum-scored candidate -/

/-- C1: when the gathered score dict is empty `match_company` returns
absent; otherwise it returns some record and total such that the total
bounds every candidate's total, the first dict entry reaching that
maximum (insertion order, earlier probes first) is exactly the returned
id with the returned total, and the returned record is the first result
gathered with that id — with the total attached as the match score. -/
theorem match_company_selects_max (q : Query) (resp : Responses) :
    ((matchState q resp).scores = [] → match_company q resp = none) ∧
    ((matchState q resp).scores ≠ [] →
      ∃ r v, match_company q resp = some (r, v) ∧
        (∀ e ∈ (matchState q resp).scores, e.2 ≤ v) ∧
        (matchState q resp).scores.find? (fun e => decide (v ≤ e.2)) =
          some (r.company_id, v) ∧
        (matchState q resp).results.find? (fun x => x.company_id == r.company_id) =
          some r) := by
  constructor
  · intro h
    show (match bestEntry (matchState q resp).scores with
      | none => none
      | some (id, v) =>
        match (matchState q resp).results.find? (fun r => r.company_id == id) with
        | none => none
        | some r => some (r, v)) = none
    rw [h]
    rfl
  · intro h
    obtain ⟨e, rest, hsc⟩ : ∃ e rest, (matchState q resp).scores = e :: rest := by
      cases hs : (matchState q resp).scores with
      | nil => exact absurd hs h
      | cons a t => exact ⟨a, t, rfl⟩
    obtain ⟨bid, bv, hbv⟩ : ∃ a b, bestFold e rest = (a, b) :=
      ⟨(bestFold e rest).1, (bestFold e rest).2, rfl⟩
    obtain ⟨ha, hb, _hc, hd⟩ := bestFold_spec rest e
    rw [hbv] at ha hb hd
    have hbe : bestEntry (matchState q resp).scores = some (bid, bv) := by
      rw [hsc]
      simp [bestEntry, hbv]
    have hbmem : (bid, bv) ∈ (matchState q resp).scores :=
      bestEntry_mem _ _ hbe
    obtain ⟨rr, hrrmem, hrid⟩ := matchState_keyInv q resp (bid, bv) hbmem
    have hfind : ∃ rr2, (matchState q resp).results.find?
        (fun x => x.company_id == bid) = some rr2 := by
      apply Option.isSome_iff_exists.mp
      rw [List.find?_isSome]
      exact ⟨rr, hrrmem, by simp [hrid]⟩
    obtain ⟨rr2, hrr2⟩ := hfind
    have hrid2 : rr2.company_id = bid := by
      have := List.find?_some hrr2
      simpa using this
    refine ⟨rr2, bv, ?_, ?_, ?_, ?_⟩
    · show (match bestEntry (matchState q resp).scores with
        | none => none
        | some (id, v) =>
          match (matchState q resp).results.find? (fun r => r.company_id == id) with
          | none => none
          | some r => some (r, v)) = some (rr2, bv)
      rw [hbe]
      show (match (matchState q resp).results.find? (fun r => r.company_id == bid) with
        | none => none
        | some r => some (r, bv)) = some (rr2, bv)
      rw [hrr2]
    · intro y hy
      rw [hsc] at hy
      rcases List.mem_cons.mp hy with h1 | h2
      · subst h1
        exact ha
      · exact hb y h2
    · rw [hsc, hrid2]
      exact hd
    · rw [hrid2]
      exact hrr2

/-- Query of the C1 witness scenario: a website-only query. -/
def qC1 : Query := { website := some "acme.com" }

/-- Responses of the C1 witness scenario: two domain hits, equal totals,
the earlier-inserted candidate winning the tie. -/
def respC1 : Responses :=
  { domainHits := [{ source := { company_id := "7" } }, { source := { company_id := "3" } }] }

/-- C1 witness: the selection theorem at the concrete scenario. -/
theorem match_company_selects_max_witness :
    (matchState qC1 respC1).scores ≠ [] ∧
    (∃ r v, match_company qC1 respC1 = some (r, v) ∧
      (∀ e ∈ (matchState qC1 respC1).scores, e.2 ≤ v) ∧
      (matchState qC1 respC1).scores.find? (fun e => decide (v ≤ e.2)) =
        some (r.company_id, v) ∧
      (matchState qC1 respC1).results.find? (fun x => x.company_id == r.company_id) =
        some r) :=
  ⟨by decide, (match_company_selects_max qC1 respC1).2 (by decide)⟩

/-! ## C2: the fallback guard -/

/-- C2: for every query with at least one truthy field (the data model
requires one), the fallback multi-match is issued exactly when the four
primary probes gathered no candidate at all; a gathered candidate whose
contribution is zero still suppresses the fallback, because it occupies
the score dict. -/
theorem fallback_iff_no_candidates (q : Query) (resp : Responses)
    (h : anyFieldPresent q = true) :
    fallbackIssued q resp = true ↔ (primaryState q resp).results = [] := by
  simp only [fallbackIssued, h, Bool.and_true, decide_eq_true_eq]
  exact primaryState_emptyIff q resp

/-- Query of the C2 witness scenario: a name-only query. -/
def qC2 : Query := { name := some "ab" }

/-- Responses of the C2 witness scenario: one name hit whose similarity is
zero (distance 2 between `ab` and `xy` over length 2). -/
def respC2 : Responses :=
  { nameHits := [{ source := { company_id := "5", commercial := some "xy" } }] }

/-- C2 witness: the fallback guard theorem at the concrete scenario. -/
theorem fallback_iff_no_candidates_witness :
    anyFieldPresent qC2 = true ∧
    (fallbackIssued qC2 respC2 = true ↔ (primaryState qC2 respC2).results = []) :=
  ⟨by decide, fallback_iff_no_candidates qC2 respC2 (by decide)⟩

/-! ## C3: non-negativity of all score contributions -/

/-- Local name-probe similarity is at most one: the Levenshtein distance
and the length denominator are non-negative. -/
theorem nameSimilarity_le_one (a b : String) : nameSimilarity a b ≤ 1 := by
  unfold nameSimilarity
  have h2 : (0 : ℚ) ≤ max (a.length : ℚ) (b.length : ℚ) :=
    le_max_of_le_left (by positivity)
  have h1 : (0 : ℚ) ≤ (levenshtein (lowerChars a.data) (lowerChars b.data) : ℚ) /
      max (a.length : ℚ) (b.length : ℚ) := div_nonneg (by positivity) h2
  linarith

/-- One step of the best-similarity loop stays within `[0, 1]`. -/
theorem bestStep_bounds (n : String) (b : ℚ) (fOpt : Option String)
    (hb0 : 0 ≤ b) (hb1 : b ≤ 1) :
    0 ≤ bestStep n b fOpt ∧ bestStep n b fOpt ≤ 1 := by
  cases fOpt with
  | none => exact ⟨hb0, hb1⟩
  | some f =>
    by_cases hf : f = ""
    · simp only [bestStep, if_pos hf]
      exact ⟨hb0, hb1⟩
    · simp only [bestStep, if_neg hf]
      exact ⟨le_trans hb0 (le_max_left _ _), max_le hb1 (nameSimilarity_le_one n f)⟩

/-- The name contribution `best_name_match * 5` lies in `[0, 5]`. -/
theorem nameScore_bounds (n : String) (r : Record) :
    0 ≤ nameScore n r ∧ nameScore n r ≤ 5 := by
  obtain ⟨h0, h1⟩ := bestStep_bounds n (bestStep n 0 r.commercial) r.legal
    (bestStep_bounds n 0 r.commercial le_rfl zero_le_one).1
    (bestStep_bounds n 0 r.commercial le_rfl zero_le_one).2
  unfold nameScore bestNameMatch
  constructor
  · nlinarith
  · nlinarith

/-- C3: provided the store's fallback scores are non-negative (Lucene
scores always are), every candidate's summed score is non-negative, and
so is the match score of any returned record; the name contribution in
particular lies in `[0, 5]`. -/
theorem match_scores_nonneg (q : Query) (resp : Responses)
    (hf : ∀ h ∈ resp.fallbackHits, 0 ≤ h.score) :
    (∀ e ∈ (matchState q resp).scores, 0 ≤ e.2) ∧
    (∀ r v, match_company q resp = some (r, v) → 0 ≤ v) ∧
    (∀ n rec, 0 ≤ nameScore n rec ∧ nameScore n rec ≤ 5) := by
  have hstep : ∀ (c : Bool) (f : Hit → ℚ) (hits : List Hit) (st : MatchState),
      (∀ e ∈ st.scores, 0 ≤ e.2) → (∀ h ∈ hits, 0 ≤ f h) →
      ∀ e ∈ (probeIf c f hits st).scores, 0 ≤ e.2 := by
    intro c f hits st hst hfh
    cases c
    · exact hst
    · exact runProbe_nonneg f hits st hst hfh
  have hname : ∀ (nameOpt : Option String) (hits : List Hit) (st : MatchState),
      (∀ e ∈ st.scores, 0 ≤ e.2) →
      ∀ e ∈ (nameProbe nameOpt hits st).scores, 0 ≤ e.2 := by
    intro nameOpt hits st hst
    cases nameOpt with
    | none => exact hst
    | some n =>
      simp only [nameProbe]
      split
      · exact hst
      · exact runProbe_nonneg _ hits st hst
          (fun h _ => (nameScore_bounds n h.source).1)
  have hprimary : ∀ e ∈ (primaryState q resp).scores, 0 ≤ e.2 := by
    apply hname
    apply hstep _ _ _ _ ?_ (fun h _ => by norm_num)
    apply hstep _ _ _ _ ?_ (fun h _ => by norm_num)
    apply hstep _ _ _ _ ?_ (fun h _ => by norm_num)
    intro e he
    simp at he
  have hmain : ∀ e ∈ (matchState q resp).scores, 0 ≤ e.2 := by
    unfold matchState
    split
    · exact runProbe_nonneg _ _ _ hprimary
        (fun h hh => div_nonneg (hf h hh) (by norm_num))
    · exact hprimary
  refine ⟨hmain, ?_, fun n rec => nameScore_bounds n rec⟩
  intro r v hrv
  have hrv2 : (match bestEntry (matchState q resp).scores with
    | none => none
    | some (id, v2) =>
      match (matchState q resp).results.find? (fun x => x.company_id == id) with
      | none => none
      | some rr => some (rr, v2)) = some (r, v) := hrv
  cases hbe : bestEntry (matchState q resp).scores with
  | none =>
    rw [hbe] at hrv2
    simp at hrv2
  | some b =>
    obtain ⟨b1, b2⟩ := b
    rw [hbe] at hrv2
    have hbmem := bestEntry_mem _ _ hbe
    have hrv3 : (match (matchState q resp).results.find? (fun x => x.company_id == b1) with
      | none => none
      | some rr => some (rr, b2)) = some (r, v) := hrv2
    cases hfind : (matchState q resp).results.find? (fun x => x.company_id == b1) with
    | none =>
      rw [hfind] at hrv3
      simp at hrv3
    | some rr =>
      rw [hfind] at hrv3
      simp only [Option.some.injEq, Prod.mk.injEq] at hrv3
      obtain ⟨-, hv⟩ := hrv3
      exact hv ▸ hmain (b1, b2) hbmem

/-- Query of the C3 witness scenario: a name-only query that falls back. -/
def qC3 : Query := { name := some "zzz" }

/-- Responses of the C3 witness scenario: no primary hits, one fallback
hit with store score 3. -/
def respC3 : Responses := { fallbackHits := [{ source := { company_id := "9" }, score := 3 }] }

/-- C3 witness: non-negativity at the concrete fallback scenario. -/
theorem match_scores_nonneg_witness :
    (∀ h ∈ respC3.fallbackHits, 0 ≤ h.score) ∧
    (∀ e ∈ (matchState qC3 respC3).scores, 0 ≤ e.2) :=
  ⟨by decide, (match_scores_nonneg qC3 respC3 (by decide)).1⟩

/-! ## C9: totality and exception absorption of `batch_scrape` -/

/-- C9: `batch_scrape` produces exactly one row per submitted task, in
completion order — the returned row for a completed future, or a failed
row carrying the exception text and `retries = -1` for a raised one — so
no task exception escapes. -/
theorem batch_scrape_total (tasks : List (String × TaskOutcome)) :
    batch_scrape tasks = tasks.map rowOf ∧
    (batch_scrape tasks).length = tasks.length ∧
    (∀ url msg, (url, TaskOutcome.raised msg) ∈ tasks →
      failedRow url msg ∈ batch_scrape tasks) := by
  have aux : ∀ (ts : List (String × TaskOutcome)) (acc : List ScrapeRow),
      ts.foldl (fun results t =>
        match t.2 with
        | .ok r => results ++ [r]
        | .raised msg => results ++ [failedRow t.1 msg]) acc = acc ++ ts.map rowOf := by
    intro ts
    induction ts with
    | nil => intro acc; simp
    | cons t ts2 ih =>
      intro acc
      obtain ⟨url, o⟩ := t
      cases o with
      | ok r =>
        rw [List.foldl_cons, ih]
        simp [rowOf]
      | raised msg =>
        rw [List.foldl_cons, ih]
        simp [rowOf]
  have hmap : batch_scrape tasks = tasks.map rowOf := by
    unfold batch_scrape
    rw [aux]
    simp
  refine ⟨hmap, by rw [hmap]; simp, ?_⟩
  intro url msg hmem
  rw [hmap]
  have := List.mem_map_of_mem rowOf hmem
  simpa [rowOf] using this

/-- Tasks of the C9 witness scenario: one returning future, one raising
future. -/
def tasksC9 : List (String × TaskOutcome) :=
  [("http://a.com", .ok { website := "http://a.com", status := "success", retries := 0 }),
   ("http://b.com", .raised "boom")]

/-- C9 witness: the raised task is absorbed as a failed row with
`retries = -1`. -/
theorem batch_scrape_total_witness :
    (("http://b.com", TaskOutcome.raised "boom") ∈ tasksC9) ∧
    failedRow "http://b.com" "boom" ∈ batch_scrape tasksC9 :=
  ⟨by decide, (batch_scrape_total tasksC9).2.2 "http://b.com" "boom" (by decide)⟩

/-! ## C10: the all-absent query -/

/-- C10: with all four fields absent every probe guard is false, the
fallback guard is false, and `match_company` returns absent — no index
query is issued. -/
theorem match_company_all_absent (resp : Responses) :
    match_company { } resp = none ∧
    domainGuard { } = false ∧ phoneGuard { } = false ∧ fbGuard { } = false ∧
    nameGuard { } = false ∧ fallbackIssued { } resp = false :=
  ⟨rfl, rfl, rfl, rfl, rfl, rfl⟩

end Corpfinder
